import Mathlib

/-!
Verification of the `await-github-file-change-cli` repository.

The development shallowly embeds the three core functions of the source
(`parseGitHubUrl`, `getEtag`, `waitForEtagChange`) and proves the spec's
claims about them.

`parseGitHubUrl` matches the JavaScript regular expression
`github\.com\/([^\x2f]+)\/([^\x2f]+)\/blob\/([^\x2f]+)\/(.+)` against the
input with `String.match` semantics: the leftmost position at which the
whole pattern matches wins, each `[^\x2f]+` greedily takes a maximal run of
non-slash characters (a run followed by a mandatory `/` admits no shorter
backtracked match, because every character of the run is itself non-slash),
and `.` matches every character except the four JavaScript line
terminators.  The embedding below implements exactly that deterministic
matching procedure on `List Char`.
-/

namespace AwaitGithubFileChange

/-- The record returned by `parseGitHubUrl` (source field names). -/
structure ParsedUrl where
  owner : String
  repo : String
  ref : String
  path : String
deriving DecidableEq, Repr

/-- The characters of the literal part `github.com/` of the pattern. -/
def githubDomainSlash : List Char :=
  ['g', 'i', 't', 'h', 'u', 'b', '.', 'c', 'o', 'm', '/']

/-- The characters of the literal part `blob/` of the pattern. -/
def blobSlash : List Char := ['b', 'l', 'o', 'b', '/']

/-- JavaScript line terminators: the characters `.` does not match. -/
def isLineTerminatorChar (c : Char) : Bool :=
  c = '\n' || c = '\r' || c = '\u2028' || c = '\u2029'

/-- `[^\x2f]+` followed by a literal `/`: returns the (nonempty, maximal)
run of non-slash characters and the remainder after the terminating slash,
or `none` when the pattern cannot match here. -/
def segSplit : List Char → Option (List Char × List Char)
  | [] => none
  | c :: cs =>
    if c = '/' then none
    else
      match segSplit cs with
      | some (seg, rest) => some (c :: seg, rest)
      | none =>
        match cs with
        | '/' :: rest => some ([c], rest)
        | _ => none

/-- Attempt to match the whole pattern starting exactly at the head of
`l`: the literal `github.com/`, then owner, repo, the literal `blob/`,
ref (each a nonempty slash-free run ended by `/`), then `(.+)`: a
nonempty maximal run of non-line-terminator characters. -/
def matchFrom (l : List Char) : Option ParsedUrl :=
  if l.take 11 = githubDomainSlash then
    (segSplit (l.drop 11)).bind fun ow =>
      (segSplit ow.2).bind fun rp =>
        if rp.2.take 5 = blobSlash then
          (segSplit (rp.2.drop 5)).bind fun rf =>
            if rf.2.takeWhile (fun c => !isLineTerminatorChar c) = [] then none
            else
              some ⟨ow.1.asString, rp.1.asString, rf.1.asString,
                (rf.2.takeWhile (fun c => !isLineTerminatorChar c)).asString⟩
        else none
  else none

/-- Leftmost match: try every start position from left to right, as
`String.match` does for an unanchored regular expression. -/
def findMatch : List Char → Option ParsedUrl
  | [] => none
  | c :: cs =>
    match matchFrom (c :: cs) with
    | some r => some r
    | none => findMatch cs

/-- The fixed message of the error thrown on a non-matching input. -/
def invalidUrlMessage : String :=
  "Invalid GitHub URL. Expected format: https://github.com/owner/repo/blob/branch/path/to/file"

/-- `parseGitHubUrl` from the source: match the regular expression against
the url; throw the fixed error when there is no match, otherwise return
the four captured groups. -/
def parseGitHubUrl (url : String) : Except String ParsedUrl :=
  match findMatch url.data with
  | none => .error invalidUrlMessage
  | some r => .ok r

example :
    parseGitHubUrl "https://github.com/gr2m/sandbox/blob/main/test-file" =
      .ok ⟨"gr2m", "sandbox", "main", "test-file"⟩ := by rfl

example :
    parseGitHubUrl "https://github.com/owner/repo/blob/main/path/to/file.txt" =
      .ok ⟨"owner", "repo", "main", "path/to/file.txt"⟩ := by rfl

example :
    parseGitHubUrl "https://example.com/invalid/url" = .error invalidUrlMessage := by rfl

example :
    parseGitHubUrl "https://github.com/owner/repo" = .error invalidUrlMessage := by rfl

example :
    parseGitHubUrl "https://evil.example/github.com/a/b/blob/main/f" =
      .ok ⟨"a", "b", "main", "f"⟩ := by rfl

/-!
`getEtag` issues one `HEAD` request through the Octokit client and returns
`response.headers.etag.replace(/^W\x2f/, '')`.  The embedding abstracts the
single request by its observable outcome: either the request rejected with
an error, or it produced a response whose `etag` header is present or
absent.  Reading `.replace` of an absent (`undefined`) header raises a
`TypeError` in JavaScript; a rejected request propagates its own error.
-/

/-- The response headers, as far as `getEtag` reads them: the `etag`
header, possibly absent. -/
structure GhHeaders where
  etag : Option String
deriving DecidableEq, Repr

/-- Observable outcome of one `octokit.request` call. -/
inductive FetchResult where
  /-- The request rejected with an error carrying this message. -/
  | err (message : String)
  /-- The request resolved with a response having these headers. -/
  | res (headers : GhHeaders)
deriving DecidableEq, Repr

/-- The ways `getEtag` can throw. -/
inductive GetEtagError where
  /-- The underlying request rejected; its error propagates unchanged. -/
  | requestError (message : String)
  /-- The `etag` header was absent, so `undefined.replace` raised. -/
  | typeError
deriving DecidableEq, Repr

/-- `etag.replace(/^W\x2f/, '')`: drop a leading `W/` if present,
otherwise return the string unchanged. -/
def normalizeEtag (etag : String) : String :=
  match etag.data with
  | c1 :: c2 :: rest => if c1 = 'W' ∧ c2 = '/' then rest.asString else etag
  | _ => etag

/-- `getEtag` from the source, as a function of the request's outcome:
propagate a request error, raise a `TypeError` on an absent `etag`
header, and otherwise return the normalized header value. -/
def getEtag : FetchResult → Except GetEtagError String
  | .err m => .error (.requestError m)
  | .res h =>
    match h.etag with
    | none => .error .typeError
    | some s => .ok (normalizeEtag s)

/-!
`waitForEtagChange` runs `getEtag` once per timer tick: on a throw it
clears the timer and rejects with that error; on a value different from
`initialEtag` it clears the timer and resolves with the value; otherwise
it leaves the timer running.  The loop is embedded over the sequence of
successive poll outcomes: `pollStep` is the body of one tick, and
`runWatch` folds it over a finite prefix of the outcome sequence,
returning how many polls were performed together with the terminal
outcome, or `none` when the prefix was exhausted with the loop still
running.
-/

/-- Terminal outcome of a watch session. -/
inductive WatchOutcome where
  /-- The promise resolved with this etag. -/
  | resolved (etag : String)
  /-- The promise rejected with this error. -/
  | rejected (error : GetEtagError)
deriving DecidableEq, Repr

/-- One tick of the `setInterval` callback: `none` means the timer keeps
running, `some` means it was cleared with this terminal outcome. -/
def pollStep (initialEtag : String) (r : FetchResult) : Option WatchOutcome :=
  match getEtag r with
  | .error e => some (.rejected e)
  | .ok current =>
    if current ≠ initialEtag then some (.resolved current) else none

/-- Run the watch loop over a finite prefix of poll outcomes: the number
of polls performed and the terminal outcome, or `none` if every poll of
the prefix left the loop running. -/
def runWatch (initialEtag : String) : List FetchResult → Option (Nat × WatchOutcome)
  | [] => none
  | r :: rs =>
    match pollStep initialEtag r with
    | some o => some (1, o)
    | none =>
      match runWatch initialEtag rs with
      | some (n, o) => some (n + 1, o)
      | none => none

/-- One poll succeeded and returned exactly the baseline (the only case
in which the loop keeps running). -/
def isOkBaseline (initialEtag : String) (r : FetchResult) : Bool :=
  match getEtag r with
  | .ok e => decide (e = initialEtag)
  | .error _ => false

/-- Every poll of the list succeeded with the baseline etag. -/
def oksBaseline (initialEtag : String) (rs : List FetchResult) : Bool :=
  rs.all (isOkBaseline initialEtag)

/-- Every poll of an infinite outcome sequence succeeds with the baseline
etag. -/
def alwaysBaseline (initialEtag : String) (f : Nat → FetchResult) : Prop :=
  ∀ k, isOkBaseline initialEtag (f k) = true

/-- The string has no `/` character (hypothesis of the well-formed-URL
claims). -/
def noSlash (s : String) : Bool :=
  s.data.all (fun c => decide (c ≠ '/'))

/-- The string has no JavaScript line terminator. -/
def noLineTerminator (s : String) : Bool :=
  s.data.all (fun c => !isLineTerminatorChar c)

/-! ### String and list helper lemmas -/

theorem asString_data (s : String) : s.data.asString = s := rfl

theorem data_ne_nil_of_ne_empty {s : String} (h : s ≠ "") : s.data ≠ [] := by
  intro hd
  exact h (String.ext (by simpa using hd))

theorem asString_ne_empty {l : List Char} (h : l ≠ []) : l.asString ≠ "" := by
  intro he
  exact h (congrArg String.data he)

theorem noSlash_mem {s : String} (h : noSlash s = true) : ∀ x ∈ s.data, x ≠ '/' := by
  simpa [noSlash] using h

theorem noLineTerminator_mem {s : String} (h : noLineTerminator s = true) :
    ∀ x ∈ s.data, isLineTerminatorChar x = false := by
  simpa [noLineTerminator] using h

theorem takeWhile_eq_self_of {α : Type} {p : α → Bool} {l : List α}
    (h : ∀ x ∈ l, p x = true) : l.takeWhile p = l := by
  induction l with
  | nil => rfl
  | cons x xs ih =>
    rw [List.takeWhile_cons_of_pos (h x (by simp))]
    rw [ih (fun y hy => h y (by simp [hy]))]

/-! ### Lemmas about the regular-expression matcher -/

theorem segSplit_cons_some {x : Char} {cs seg rest : List Char} (hx : x ≠ '/')
    (h : segSplit cs = some (seg, rest)) :
    segSplit (x :: cs) = some (x :: seg, rest) := by
  simp only [segSplit]
  rw [if_neg hx, h]

theorem segSplit_append :
    ∀ (a b : List Char), a ≠ [] → (∀ x ∈ a, x ≠ '/') →
      segSplit (a ++ '/' :: b) = some (a, b) := by
  intro a
  induction a with
  | nil => intro b h _; exact absurd rfl h
  | cons x xs ih =>
    intro b _ hs
    have hx : x ≠ '/' := hs x (by simp)
    cases xs with
    | nil => simp [segSplit, hx]
    | cons y ys =>
      exact segSplit_cons_some hx (ih b (by simp) (fun z hz => hs z (by simp [hz])))

theorem segSplit_ne_nil {l seg rest : List Char} (h : segSplit l = some (seg, rest)) :
    seg ≠ [] := by
  cases l with
  | nil => simp [segSplit] at h
  | cons c cs =>
    simp only [segSplit] at h
    split at h
    · simp at h
    · split at h
      · obtain ⟨h1, -⟩ := Prod.mk.injEq .. ▸ Option.some.injEq .. ▸ h
        exact h1 ▸ (by simp)
      · split at h
        · obtain ⟨h1, -⟩ := Prod.mk.injEq .. ▸ Option.some.injEq .. ▸ h
          exact h1 ▸ (by simp)
        · simp at h

theorem matchFrom_cons_ne {c : Char} (l : List Char) (h : c ≠ 'g') :
    matchFrom (c :: l) = none := by
  have hne : (c :: l).take 11 ≠ githubDomainSlash := by
    intro he
    have ht : (c :: l).take 11 = c :: l.take 10 := rfl
    rw [ht] at he
    simp only [githubDomainSlash] at he
    injection he with h1 _
    exact h h1
  unfold matchFrom
  rw [if_neg hne]

theorem findMatch_cons_none {c : Char} {l : List Char} (h : matchFrom (c :: l) = none) :
    findMatch (c :: l) = findMatch l := by
  simp [findMatch, h]

theorem findMatch_cons_some {c : Char} {l : List Char} {r : ParsedUrl}
    (h : matchFrom (c :: l) = some r) : findMatch (c :: l) = some r := by
  simp [findMatch, h]

theorem findMatch_cons_ne {c : Char} (l : List Char) (h : c ≠ 'g') :
    findMatch (c :: l) = findMatch l :=
  findMatch_cons_none (matchFrom_cons_ne l h)

theorem matchFrom_wellformed (a b c d : List Char)
    (ha : a ≠ []) (ha2 : ∀ x ∈ a, x ≠ '/')
    (hb : b ≠ []) (hb2 : ∀ x ∈ b, x ≠ '/')
    (hc : c ≠ []) (hc2 : ∀ x ∈ c, x ≠ '/')
    (hd : d ≠ []) (hd2 : ∀ x ∈ d, isLineTerminatorChar x = false) :
    matchFrom (githubDomainSlash ++
        (a ++ '/' :: (b ++ '/' ::
          ('b' :: 'l' :: 'o' :: 'b' :: '/' :: (c ++ '/' :: d))))) =
      some ⟨a.asString, b.asString, c.asString, d.asString⟩ := by
  have h11 : githubDomainSlash.length = 11 := rfl
  have htw : d.takeWhile (fun x => !isLineTerminatorChar x) = d :=
    takeWhile_eq_self_of (fun x hx => by simp [hd2 x hx])
  unfold matchFrom
  rw [List.take_left' h11, if_pos rfl, List.drop_left' h11]
  rw [segSplit_append a _ ha ha2]
  simp only [Option.some_bind]
  rw [segSplit_append b _ hb hb2]
  simp only [Option.some_bind]
  rw [if_pos
    (show ('b' :: 'l' :: 'o' :: 'b' :: '/' :: (c ++ '/' :: d)).take 5 = blobSlash from rfl)]
  rw [show ('b' :: 'l' :: 'o' :: 'b' :: '/' :: (c ++ '/' :: d)).drop 5 = c ++ '/' :: d from
    rfl]
  rw [segSplit_append c d hc hc2]
  simp only [Option.some_bind]
  rw [htw, if_neg hd]

theorem findMatch_at_domain {T : List Char} {r : ParsedUrl}
    (h : matchFrom (githubDomainSlash ++ T) = some r) :
    findMatch (githubDomainSlash ++ T) = some r := by
  have he : githubDomainSlash ++ T =
      'g' :: (['i', 't', 'h', 'u', 'b', '.', 'c', 'o', 'm', '/'] ++ T) := rfl
  rw [he] at h ⊢
  exact findMatch_cons_some h

theorem matchFrom_fields {l : List Char} {r : ParsedUrl} (h : matchFrom l = some r) :
    r.owner ≠ "" ∧ r.repo ≠ "" ∧ r.ref ≠ "" ∧ r.path ≠ "" := by
  unfold matchFrom at h
  split at h
  · rw [Option.bind_eq_some] at h
    obtain ⟨ow, how, h⟩ := h
    rw [Option.bind_eq_some] at h
    obtain ⟨rp, hrp, h⟩ := h
    split at h
    · rw [Option.bind_eq_some] at h
      obtain ⟨rf, hrf, h⟩ := h
      split at h
      · simp at h
      · next hpe =>
          injection h with h'
          subst h'
          exact ⟨asString_ne_empty (segSplit_ne_nil how),
            asString_ne_empty (segSplit_ne_nil hrp),
            asString_ne_empty (segSplit_ne_nil hrf),
            asString_ne_empty hpe⟩
    · simp at h
  · simp at h

theorem findMatch_fields :
    ∀ {l : List Char} {r : ParsedUrl}, findMatch l = some r →
      r.owner ≠ "" ∧ r.repo ≠ "" ∧ r.ref ≠ "" ∧ r.path ≠ "" := by
  intro l
  induction l with
  | nil => intro r h; simp [findMatch] at h
  | cons c cs ih =>
    intro r h
    cases hm : matchFrom (c :: cs) with
    | some q =>
      rw [findMatch_cons_some hm] at h
      injection h with h'
      exact h' ▸ matchFrom_fields hm
    | none =>
      rw [findMatch_cons_none hm] at h
      exact ih h

/-! ### Claims about the Reference Parser -/

/-- C1: for every well-formed input of shape
`host/owner/repository/blob/revision/path` — owner, repository and
revision nonempty with no `/`, path nonempty (well-formed URLs contain no
line terminator) — `parseGitHubUrl` returns exactly the four-field record
with `path` equal to everything after the revision segment, embedded `/`
included. -/
theorem claim1_parse_wellformed (owner repo ref path : String)
    (h1 : owner ≠ "") (h2 : noSlash owner = true)
    (h3 : repo ≠ "") (h4 : noSlash repo = true)
    (h5 : ref ≠ "") (h6 : noSlash ref = true)
    (h7 : path ≠ "") (h8 : noLineTerminator path = true) :
    parseGitHubUrl
        ("https://github.com/" ++ owner ++ "/" ++ repo ++ "/blob/" ++ ref ++ "/" ++ path) =
      .ok ⟨owner, repo, ref, path⟩ := by
  have hmf :
      matchFrom (githubDomainSlash ++
          (owner.data ++ '/' :: (repo.data ++ '/' ::
            ('b' :: 'l' :: 'o' :: 'b' :: '/' :: (ref.data ++ '/' :: path.data))))) =
        some ⟨owner, repo, ref, path⟩ := by
    have := matchFrom_wellformed owner.data repo.data ref.data path.data
      (data_ne_nil_of_ne_empty h1) (noSlash_mem h2)
      (data_ne_nil_of_ne_empty h3) (noSlash_mem h4)
      (data_ne_nil_of_ne_empty h5) (noSlash_mem h6)
      (data_ne_nil_of_ne_empty h7) (noLineTerminator_mem h8)
    simpa [asString_data] using this
  have hdata :
      ("https://github.com/" ++ owner ++ "/" ++ repo ++ "/blob/" ++ ref ++ "/" ++
            path).data =
        'h' :: 't' :: 't' :: 'p' :: 's' :: ':' :: '/' :: '/' ::
          (githubDomainSlash ++
            (owner.data ++ '/' :: (repo.data ++ '/' ::
              ('b' :: 'l' :: 'o' :: 'b' :: '/' :: (ref.data ++ '/' :: path.data))))) := by
    have d1 : "https://github.com/".data =
        'h' :: 't' :: 't' :: 'p' :: 's' :: ':' :: '/' :: '/' :: githubDomainSlash := rfl
    have d2 : "/".data = ['/'] := rfl
    have d3 : "/blob/".data = '/' :: 'b' :: 'l' :: 'o' :: 'b' :: ['/'] := rfl
    simp only [String.data_append, d1, d2, d3, List.cons_append, List.nil_append,
      List.append_assoc]
    rfl
  unfold parseGitHubUrl
  rw [hdata]
  rw [findMatch_cons_ne (c := 'h') _ (by decide), findMatch_cons_ne (c := 't') _ (by decide),
    findMatch_cons_ne (c := 't') _ (by decide), findMatch_cons_ne (c := 'p') _ (by decide),
    findMatch_cons_ne (c := 's') _ (by decide), findMatch_cons_ne (c := ':') _ (by decide),
    findMatch_cons_ne (c := '/') _ (by decide), findMatch_cons_ne (c := '/') _ (by decide)]
  rw [findMatch_at_domain hmf]

/-- Witness for C1: the spec's end-to-end example
`https://github.com/acme/widgets/blob/main/src/file.txt`. -/
theorem claim1_witness :
    ("acme" : String) ≠ "" ∧ noSlash "acme" = true ∧
      ("widgets" : String) ≠ "" ∧ noSlash "widgets" = true ∧
      ("main" : String) ≠ "" ∧ noSlash "main" = true ∧
      ("src/file.txt" : String) ≠ "" ∧ noLineTerminator "src/file.txt" = true ∧
      parseGitHubUrl ("https://github.com/" ++ "acme" ++ "/" ++ "widgets" ++ "/blob/" ++
          "main" ++ "/" ++ "src/file.txt") =
        .ok ⟨"acme", "widgets", "main", "src/file.txt"⟩ :=
  ⟨by decide, by rfl, by decide, by rfl, by decide, by rfl, by decide, by rfl,
    claim1_parse_wellformed "acme" "widgets" "main" "src/file.txt"
      (by decide) (by rfl) (by decide) (by rfl) (by decide) (by rfl) (by decide) (by rfl)⟩

/-- C8: on every input the parser either succeeds or fails with the one
fixed, stable message; in particular it fails on a wrong domain, a
missing `blob` segment, a missing revision, a missing path, and a bare
repository URL. -/
theorem claim8_invalid_inputs :
    (∀ url : String, (∃ r, parseGitHubUrl url = .ok r) ∨
        parseGitHubUrl url = .error invalidUrlMessage) ∧
      parseGitHubUrl "https://example.com/invalid/url" = .error invalidUrlMessage ∧
      parseGitHubUrl "https://github.com" = .error invalidUrlMessage ∧
      parseGitHubUrl "https://github.com/owner/repo" = .error invalidUrlMessage ∧
      parseGitHubUrl "https://github.com/owner/repo/blob/" = .error invalidUrlMessage ∧
      parseGitHubUrl "https://github.com/owner/repo/blob/main" = .error invalidUrlMessage := by
  refine ⟨?_, by rfl, by rfl, by rfl, by rfl, by rfl⟩
  intro url
  unfold parseGitHubUrl
  cases h : findMatch url.data with
  | none => right; rfl
  | some r => left; exact ⟨r, rfl⟩

/-- C9: whenever `parseGitHubUrl` succeeds, all four fields of the
returned record are nonempty strings. -/
theorem claim9_fields_nonempty (url : String) (r : ParsedUrl)
    (h : parseGitHubUrl url = .ok r) :
    r.owner ≠ "" ∧ r.repo ≠ "" ∧ r.ref ≠ "" ∧ r.path ≠ "" := by
  unfold parseGitHubUrl at h
  cases hf : findMatch url.data with
  | none => rw [hf] at h; simp at h
  | some q =>
    rw [hf] at h
    simp only [Except.ok.injEq] at h
    exact h ▸ findMatch_fields hf

/-- Witness for C9 at the README's example URL. -/
theorem claim9_witness :
    parseGitHubUrl "https://github.com/gr2m/sandbox/blob/main/test-file" =
        .ok (ParsedUrl.mk "gr2m" "sandbox" "main" "test-file") ∧
      ((ParsedUrl.mk "gr2m" "sandbox" "main" "test-file").owner ≠ "" ∧
        (ParsedUrl.mk "gr2m" "sandbox" "main" "test-file").repo ≠ "" ∧
        (ParsedUrl.mk "gr2m" "sandbox" "main" "test-file").ref ≠ "" ∧
        (ParsedUrl.mk "gr2m" "sandbox" "main" "test-file").path ≠ "") :=
  ⟨by rfl,
    claim9_fields_nonempty "https://github.com/gr2m/sandbox/blob/main/test-file"
      (ParsedUrl.mk "gr2m" "sandbox" "main" "test-file") (by rfl)⟩

/-- C10: matching is unanchored — an input whose host is not
`github.com` but which contains `github.com/a/b/blob/main/f` later in
the string parses successfully, extracting the components of the
embedded substring. -/
theorem claim10_unanchored :
    parseGitHubUrl "https://evil.example/github.com/a/b/blob/main/f" =
      .ok ⟨"a", "b", "main", "f"⟩ := by rfl

example : normalizeEtag "W/\"abc123\"" = "\"abc123\"" := by rfl

example : normalizeEtag "\"xyz789\"" = "\"xyz789\"" := by rfl

example :
    runWatch "\"old\""
      [.res ⟨some "\"old\""⟩, .res ⟨some "\"old\""⟩, .res ⟨some "\"old\""⟩,
        .res ⟨some "\"new\""⟩] =
      some (4, .resolved "\"new\"") := by rfl

example :
    runWatch "\"old\"" [.res ⟨some "\"old\""⟩, .err "API Error", .res ⟨some "\"new\""⟩] =
      some (2, .rejected (.requestError "API Error")) := by rfl

example :
    runWatch "\"old\"" [.res ⟨some "\"old\""⟩, .res ⟨some "\"old\""⟩] = none := by rfl

/-! ### Lemmas about `normalizeEtag` and `getEtag` -/

theorem normalizeEtag_marker (rest : List Char) {s : String}
    (h : s.data = 'W' :: '/' :: rest) : normalizeEtag s = rest.asString := by
  unfold normalizeEtag
  rw [h]
  simp

theorem normalizeEtag_not_marker {s : String}
    (h : ∀ rest, s.data ≠ 'W' :: '/' :: rest) : normalizeEtag s = s := by
  unfold normalizeEtag
  cases hd : s.data with
  | nil => rfl
  | cons c1 t =>
    cases t with
    | nil => rfl
    | cons c2 rest =>
      show (if c1 = 'W' ∧ c2 = '/' then rest.asString else s) = s
      rw [if_neg]
      rintro ⟨rfl, rfl⟩
      exact h rest hd

/-! ### Lemmas about the polling loop -/

theorem pollStep_none_iff {b : String} {r : FetchResult} :
    pollStep b r = none ↔ isOkBaseline b r = true := by
  cases h : getEtag r with
  | error e => simp [pollStep, isOkBaseline, h]
  | ok e =>
    by_cases he : e = b
    · simp [pollStep, isOkBaseline, h, he]
    · simp [pollStep, isOkBaseline, h, he]

theorem runWatch_cons_terminal {b : String} {r : FetchResult} {o : WatchOutcome}
    (h : pollStep b r = some o) (rest : List FetchResult) :
    runWatch b (r :: rest) = some (1, o) := by
  simp [runWatch, h]

theorem runWatch_append_skip :
    ∀ (pre l : List FetchResult) (b : String), oksBaseline b pre = true →
      runWatch b (pre ++ l) =
        (runWatch b l).map (fun p => (p.1 + pre.length, p.2)) := by
  intro pre
  induction pre with
  | nil =>
    intro l b _
    cases h : runWatch b l with
    | none => simp [h]
    | some p => simp [h]
  | cons x xs ih =>
    intro l b hall
    simp only [oksBaseline, List.all_cons, Bool.and_eq_true] at hall
    have hps : pollStep b x = none := pollStep_none_iff.mpr hall.1
    simp only [List.cons_append, runWatch, hps]
    simp only [List.append_eq]
    rw [ih l b hall.2]
    cases h : runWatch b l with
    | none => simp
    | some p => simp [Nat.add_assoc]

theorem runWatch_none_of_oks :
    ∀ (rs : List FetchResult) (b : String), oksBaseline b rs = true →
      runWatch b rs = none := by
  intro rs
  induction rs with
  | nil => intro b _; rfl
  | cons x xs ih =>
    intro b h
    simp only [oksBaseline, List.all_cons, Bool.and_eq_true] at h
    simp [runWatch, pollStep_none_iff.mpr h.1, ih b h.2]

/-! ### Claims about the Fingerprint Fetcher -/

/-- C2 counterexample: the weak header `W/"abc123"` is normalized to the
string `"abc123"` — the surrounding quote characters are kept — not to
the bare six-character string `abc123` stated by the claim. -/
theorem claim2_counterexample :
    getEtag (.res ⟨some "W/\"abc123\""⟩) = .ok "\"abc123\"" ∧
      ("\"abc123\"" : String) ≠ "abc123" :=
  ⟨by rfl, by decide⟩

/-- C2 (amended): `getEtag` normalizes the fingerprint header by
stripping only a leading weak-validator marker `W/`, keeping the
surrounding quote characters, so the weak form `W/"digest"` and the
strong form `"digest"` of the same digest both yield the fingerprint
`"digest"` and compare as equal strings. -/
theorem claim2_amended_normalization (d : String) :
    getEtag (.res ⟨some ("W/\"" ++ d ++ "\"")⟩) = .ok ("\"" ++ d ++ "\"") ∧
      getEtag (.res ⟨some ("\"" ++ d ++ "\"")⟩) = .ok ("\"" ++ d ++ "\"") := by
  have h1 : ("W/\"" ++ d ++ "\"").data = 'W' :: '/' :: ('"' :: (d.data ++ ['"'])) := by
    simp only [String.data_append, List.cons_append, List.nil_append, List.append_assoc]
  have h2 : ("\"" ++ d ++ "\"").data = '"' :: (d.data ++ ['"']) := by
    simp only [String.data_append, List.cons_append, List.nil_append, List.append_assoc]
  constructor
  · show Except.ok (normalizeEtag ("W/\"" ++ d ++ "\"")) = Except.ok ("\"" ++ d ++ "\"")
    rw [normalizeEtag_marker ('"' :: (d.data ++ ['"'])) h1]
    congr 1
  · show Except.ok (normalizeEtag ("\"" ++ d ++ "\"")) = Except.ok ("\"" ++ d ++ "\"")
    rw [normalizeEtag_not_marker]
    intro rest hre
    rw [h2] at hre
    injection hre with ha _
    exact absurd ha (by decide)

/-- C6 counterexample: a present but malformed fingerprint header is not
rejected — `getEtag` returns it unchanged as a success value instead of
failing with a FetchError. -/
theorem claim6_counterexample :
    getEtag (.res ⟨some "not-an-etag"⟩) = .ok "not-an-etag" := by rfl

/-- C6 (amended): a missing fingerprint header makes `getEtag` throw — a
TypeError from reading `.replace` of `undefined`, not a wrapped
FetchError — and a failing request propagates its own error unchanged;
but a malformed present header is not detected: its normalized value is
returned as a success. -/
theorem claim6_amended_missing_header :
    getEtag (.res ⟨none⟩) = .error .typeError ∧
      (∀ m, getEtag (.err m) = .error (.requestError m)) ∧
      (∀ s, getEtag (.res ⟨some s⟩) = .ok (normalizeEtag s)) :=
  ⟨rfl, fun _ => rfl, fun _ => rfl⟩

/-! ### Claims about the Change Watcher -/

/-- C3: when every poll before position n succeeds with the baseline and
the poll at position n succeeds with a different fingerprint, the watch
terminates after exactly n+1 fetch calls, resolved with that poll's
fingerprint, regardless of any later polls. -/
theorem claim3_resolves_at_first_change (baseline e : String)
    (pre rest : List FetchResult) (r : FetchResult)
    (hpre : oksBaseline baseline pre = true)
    (hr : getEtag r = .ok e) (hne : e ≠ baseline) :
    runWatch baseline (pre ++ r :: rest) = some (pre.length + 1, .resolved e) := by
  have hps : pollStep baseline r = some (.resolved e) := by
    simp [pollStep, hr, hne]
  rw [runWatch_append_skip pre (r :: rest) baseline hpre,
    runWatch_cons_terminal hps rest]
  simp [Nat.add_comm]

/-- Witness for C3: the spec's `[old, old, old, new]` sequence resolves
after the 4th call with the 4th call's fingerprint. -/
theorem claim3_witness :
    oksBaseline "\"old\""
        [.res ⟨some "\"old\""⟩, .res ⟨some "\"old\""⟩, .res ⟨some "\"old\""⟩] = true ∧
      getEtag (.res ⟨some "\"new\""⟩) = .ok "\"new\"" ∧
      ("\"new\"" : String) ≠ "\"old\"" ∧
      runWatch "\"old\""
          ([.res ⟨some "\"old\""⟩, .res ⟨some "\"old\""⟩, .res ⟨some "\"old\""⟩] ++
            [.res ⟨some "\"new\""⟩]) =
        some (3 + 1, .resolved "\"new\"") :=
  ⟨by rfl, by rfl, by decide,
    claim3_resolves_at_first_change "\"old\"" "\"new\""
      [.res ⟨some "\"old\""⟩, .res ⟨some "\"old\""⟩, .res ⟨some "\"old\""⟩]
      [] (.res ⟨some "\"new\""⟩) (by rfl) (by rfl) (by decide)⟩

/-- C4: when the very first poll's fingerprint already differs from the
baseline, the watch resolves with it after exactly one fetch call. -/
theorem claim4_first_poll_resolves (baseline e : String) (r : FetchResult)
    (rest : List FetchResult) (hr : getEtag r = .ok e) (hne : e ≠ baseline) :
    runWatch baseline (r :: rest) = some (1, .resolved e) := by
  have hps : pollStep baseline r = some (.resolved e) := by
    simp [pollStep, hr, hne]
  exact runWatch_cons_terminal hps rest

/-- Witness for C4: a first poll that already sees a different
fingerprint resolves immediately. -/
theorem claim4_witness :
    getEtag (.res ⟨some "\"different-etag\""⟩) = .ok "\"different-etag\"" ∧
      ("\"different-etag\"" : String) ≠ "\"old-etag\"" ∧
      runWatch "\"old-etag\"" [.res ⟨some "\"different-etag\""⟩, .res ⟨some "\"x\""⟩] =
        some (1, .resolved "\"different-etag\"") :=
  ⟨by rfl, by decide,
    claim4_first_poll_resolves "\"old-etag\"" "\"different-etag\""
      (.res ⟨some "\"different-etag\""⟩) [.res ⟨some "\"x\""⟩] (by rfl) (by decide)⟩

/-- C5: when every earlier poll succeeded with the baseline and the poll
at position n fails, the watch terminates after exactly n+1 fetch calls
— no further polls happen — rejected with exactly the failing fetch's
error, unchanged. -/
theorem claim5_error_rejects (baseline : String) (err : GetEtagError)
    (pre rest : List FetchResult) (r : FetchResult)
    (hpre : oksBaseline baseline pre = true)
    (hr : getEtag r = .error err) :
    runWatch baseline (pre ++ r :: rest) = some (pre.length + 1, .rejected err) := by
  have hps : pollStep baseline r = some (.rejected err) := by
    simp [pollStep, hr]
  rw [runWatch_append_skip pre (r :: rest) baseline hpre,
    runWatch_cons_terminal hps rest]
  simp [Nat.add_comm]

/-- Witness for C5: one baseline poll, then a failing fetch; the watch
stops after the 2nd call with exactly the request's error. -/
theorem claim5_witness :
    oksBaseline "\"etag\"" [.res ⟨some "\"etag\""⟩] = true ∧
      getEtag (.err "API Error") = .error (.requestError "API Error") ∧
      runWatch "\"etag\""
          ([.res ⟨some "\"etag\""⟩] ++ [.err "API Error", .res ⟨some "\"late\""⟩]) =
        some (1 + 1, .rejected (.requestError "API Error")) :=
  ⟨by rfl, by rfl,
    claim5_error_rejects "\"etag\"" (.requestError "API Error")
      [.res ⟨some "\"etag\""⟩] [.res ⟨some "\"late\""⟩] (.err "API Error")
      (by rfl) (by rfl)⟩

/-- C7: when every poll of an infinite sequence succeeds with the
baseline fingerprint, no finite number of polls terminates the watch: it
neither resolves nor rejects on its own. -/
theorem claim7_no_spontaneous_termination (baseline : String) (f : Nat → FetchResult)
    (h : alwaysBaseline baseline f) (n : Nat) :
    runWatch baseline ((List.range n).map f) = none := by
  apply runWatch_none_of_oks
  simp only [oksBaseline, List.all_eq_true]
  intro x hx
  obtain ⟨k, -, rfl⟩ := List.mem_map.mp hx
  exact h k

/-- The constant poll stream used by the witness of C7. -/
def constOkStream : Nat → FetchResult := fun _ => .res ⟨some "\"same\""⟩

/-- Witness for C7: a stream that always reports the baseline leaves the
watch running after any number of polls (here 5). -/
theorem claim7_witness :
    alwaysBaseline "\"same\"" constOkStream ∧
      runWatch "\"same\"" ((List.range 5).map constOkStream) = none :=
  ⟨fun _ => rfl,
    claim7_no_spontaneous_termination "\"same\"" constOkStream (fun _ => rfl) 5⟩

end AwaitGithubFileChange
